import Mathlib

/-!
Shallow embedding of the ai-skating indexing and retrieval engine:
the text chunker (src/transformer/chunker.py), the FAISS-backed vector
store (src/transformer/vector_store.py), the retriever
(src/generator/retriever.py) and the indexing pipeline
(src/transformer/pipeline.py), together with theorems settling the
frozen claims about them.

Modelling conventions:
* Python dicts used as metadata mappings become association lists over
  an `MVal` value type mirroring the values the program stores there.
* MongoDB collections become in-memory lists of structured documents;
  `insert_one` is modelled with an explicit oracle deciding whether each
  insert attempt succeeds, since the store is an external collaborator
  that may fail per call.
* Embedding vectors are idealised as lists of real numbers; the
  floating-point `faiss.normalize_L2` becomes exact real L2
  normalisation.  The exhaustive inner-product scan performed by the
  faiss library itself is an external collaborator and is passed in as a
  function argument.
* The tiktoken encoder/decoder pair is an external deterministic
  tokenizer and is likewise passed in as a pair of function arguments.
-/

/-- Values stored in the program's metadata mappings: strings, integers
or Python `None`. -/
inductive MVal where
  | str (s : String)
  | nat (n : Nat)
  | null
  deriving DecidableEq, Repr

/-- Python truthiness of a metadata value. -/
def MVal.truthy : MVal → Bool
  | .str s => s ≠ ""
  | .nat n => n ≠ 0
  | .null => false

/-- Rendering of a metadata value inside a Python f-string. -/
def MVal.render : MVal → String
  | .str s => s
  | .nat n => toString n
  | .null => "None"

/-- A Python dict with string keys, modelled as an association list with
unique keys. -/
abbrev Dict := List (String × MVal)

/-- Model of `d.get(key)`: the stored value, or `None` when the key is
absent. -/
def dictGet (m : Dict) (k : String) : MVal :=
  match m.find? (fun p => p.1 == k) with
  | some p => p.2
  | none => .null

/-- Whether a dict has a given key. -/
def dictHasKey (m : Dict) (k : String) : Bool :=
  m.any (fun p => p.1 == k)

/-- Model of the Python dict-merge update: the existing entry is
replaced in place, a new key is appended at the end. -/
def dictInsert (m : Dict) (k : String) (v : MVal) : Dict :=
  if m.any (fun p => p.1 == k) then
    m.map (fun p => if p.1 == k then (k, v) else p)
  else m ++ [(k, v)]

/-- Python truthiness of an optional string: `None` and the empty string
are falsy. -/
def optStrTruthy : Option String → Bool
  | some s => s ≠ ""
  | none => false

/-- Model of the Python `a or b` fallback on strings, where a falsy
(absent or empty) `a` falls through to `b`. -/
def pyOrStr (a : Option String) (b : String) : String :=
  match a with
  | some s => if s = "" then b else s
  | none => b

/-- Model of Python `str.strip()`: leading and trailing whitespace
removed. -/
def pyStrip (s : String) : String :=
  ⟨((s.data.dropWhile Char.isWhitespace).reverse.dropWhile
      Char.isWhitespace).reverse⟩

namespace TextChunker

/-- A text chunk with metadata; mirrors the `TextChunk` dataclass of
src/transformer/chunker.py. -/
structure TextChunk where
  text : String
  metadata : Dict
  chunk_index : Nat
  token_count : Nat
  deriving DecidableEq, Repr

/-- Model of `TextChunker._build_metadata_prefix`: a header line built
from the truthy `athlete_name`, `topic` and `title` entries, joined with
a delimiter and followed by a blank line. -/
def build_metadata_header (metadata : Dict) : String :=
  let parts : List String :=
    (if (dictGet metadata "athlete_name").truthy then
      ["Athlete: " ++ (dictGet metadata "athlete_name").render] else []) ++
    (if (dictGet metadata "topic").truthy then
      ["Topic: " ++ (dictGet metadata "topic").render] else []) ++
    (if (dictGet metadata "title").truthy then
      ["Title: " ++ (dictGet metadata "title").render] else [])
  if parts ≠ [] then String.intercalate " | " parts ++ "\n\n" else ""

/-- The chunking loop of `TextChunker.split_text` (lines 113-131): a
window of `chunkSize` tokens strides across the token list with step
`chunkSize - chunkOverlap` until the window's start reaches the total
token count.  The source loop has no guard against
`chunkOverlap ≥ chunkSize`, where it would never terminate; the model's
guard returns the empty continuation in that (never exercised)
configuration. -/
def strideLoop (chunkSize chunkOverlap : Nat) (decode : List Nat → String)
    (metadata : Dict) (tokens : List Nat) (start chunkIndex : Nat) :
    List TextChunk :=
  if h : start < tokens.length ∧ chunkOverlap < chunkSize then
    let chunkTokens := (tokens.drop start).take chunkSize
    { text := decode chunkTokens,
      metadata := dictInsert metadata "chunk_index" (.nat chunkIndex),
      chunk_index := chunkIndex,
      token_count := chunkTokens.length } ::
      strideLoop chunkSize chunkOverlap decode metadata tokens
        (start + (chunkSize - chunkOverlap)) (chunkIndex + 1)
  else []
termination_by tokens.length - start
decreasing_by
  omega

/-- Model of `TextChunker.split_text`: empty or whitespace-only text
yields no chunks; after optionally prepending the metadata header, a
text of at most `chunkSize` tokens yields a single chunk with the
caller's metadata unchanged, and a longer text is split by the striding
loop. -/
def split_text (encode : String → List Nat) (decode : List Nat → String)
    (chunkSize chunkOverlap : Nat) (text : String) (metadata : Dict)
    (prependMeta : Bool) : List TextChunk :=
  if text = "" ∨ pyStrip text = "" then []
  else
    let fullText :=
      if prependMeta then build_metadata_header metadata ++ text else text
    let tokens := encode fullText
    if tokens.length ≤ chunkSize then
      [{ text := fullText, metadata := metadata, chunk_index := 0,
         token_count := tokens.length }]
    else
      strideLoop chunkSize chunkOverlap decode metadata tokens 0 0

end TextChunker

namespace VectorStore

/-- Squared L2 norm of a vector (sum of squared components). -/
noncomputable def l2normSq (v : List ℝ) : ℝ :=
  (v.map (fun x => x * x)).sum

/-- Model of `faiss.normalize_L2`, idealised over the reals: every
component is divided by the vector's L2 norm. -/
noncomputable def normalizeL2 (v : List ℝ) : List ℝ :=
  v.map (fun x => x / Real.sqrt (l2normSq v))

/-- A Metadata Document as written by `VectorStore.index_chunks`
(lines 140-150), plus its MongoDB primary key. -/
structure MetaDoc where
  key : Nat
  faiss_id : Nat
  text : String
  athlete_name : MVal
  chunk_index : Nat
  token_count : Nat
  metadata : Dict
  embedding_model : String
  embedding_dimension : Nat
  indexed_at : Nat
  deriving DecidableEq, Repr

/-- The MongoDB metadata collection: its documents in insertion order
and the next primary key to assign. -/
structure MetaStore where
  docs : List MetaDoc
  nextKey : Nat
  deriving DecidableEq, Repr

/-- A chunk dictionary as submitted to `VectorStore.index_chunks`:
the fields set by `split_into_chunks` plus the fields added by
`EmbeddingGenerator.embed_chunks`. -/
structure EmbChunk where
  text : String
  metadata : Dict
  chunk_index : Nat
  token_count : Nat
  athlete_name : MVal
  embedding : List ℝ
  embedding_model : String
  embedding_dimension : Nat

/-- The in-memory state of a `VectorStore`: the metadata collection,
the faiss-id to metadata-key mapping, the next-id counter and the
vectors held by the flat faiss index (in insertion order). -/
structure VSState where
  meta : MetaStore
  mapping : List (Nat × String)
  next_faiss_id : Nat
  vectors : List (List ℝ)

/-- The duplicate probe of `index_chunks` (lines 121-125): the first
metadata document whose `metadata.source_doc_id` and `chunk_index`
match the submitted chunk's. -/
def findDuplicate (meta : MetaStore) (sourceDocId : MVal) (chunkIndex : Nat) :
    Option MetaDoc :=
  meta.docs.find? (fun m =>
    decide (dictGet m.metadata "source_doc_id" = sourceDocId ∧
      m.chunk_index = chunkIndex))

/-- The metadata document built for one chunk by `index_chunks`
(lines 140-150). -/
def chunkMetaDoc (c : EmbChunk) (faissId key now : Nat) : MetaDoc :=
  { key := key, faiss_id := faissId, text := c.text,
    athlete_name := c.athlete_name, chunk_index := c.chunk_index,
    token_count := c.token_count, metadata := c.metadata,
    embedding_model := c.embedding_model,
    embedding_dimension := c.embedding_dimension, indexed_at := now }

/-- Model of the Python dict assignment on the id mapping: replace an
existing key in place, append a new key. -/
def mapInsert (m : List (Nat × String)) (k : Nat) (v : String) :
    List (Nat × String) :=
  if m.any (fun p => p.1 == k) then
    m.map (fun p => if p.1 == k then (k, v) else p)
  else m ++ [(k, v)]

/-- The running state of the per-chunk loop of `index_chunks`:
the growing metadata collection, id mapping and next-id counter, the
inserted count, the batch of normalized embeddings awaiting the final
`index.add`, and the number of `insert_one` calls attempted so far
(used by the insert-success oracle). -/
structure IndexLoopSt where
  meta : MetaStore
  mapping : List (Nat × String)
  next_faiss_id : Nat
  inserted : Nat
  embs : List (List ℝ)
  attempts : Nat

/-- The per-chunk loop of `index_chunks` (lines 118-163): skip
duplicates, skip embeddings with the wrong dimension, normalize,
insert the metadata document (the oracle `insOk` says whether the
`insert_one` call succeeds; a failed insert is caught and the chunk
contributes nothing), record the id mapping and collect the embedding
for the final batch add. -/
noncomputable def indexLoop (dim : Nat) (skipDuplicates : Bool)
    (insOk : Nat → Bool) (now : Nat) :
    List EmbChunk → IndexLoopSt → IndexLoopSt
  | [], s => s
  | c :: rest, s =>
    if skipDuplicates &&
        (findDuplicate s.meta (dictGet c.metadata "source_doc_id")
          c.chunk_index).isSome then
      indexLoop dim skipDuplicates insOk now rest s
    else if c.embedding.length = 0 ∨ c.embedding.length ≠ dim then
      indexLoop dim skipDuplicates insOk now rest s
    else
      let emb := normalizeL2 c.embedding
      if insOk s.attempts then
        let key := s.meta.nextKey
        indexLoop dim skipDuplicates insOk now rest
          { meta := { docs := s.meta.docs ++
                        [chunkMetaDoc c s.next_faiss_id key now],
                      nextKey := key + 1 },
            mapping := mapInsert s.mapping s.next_faiss_id (toString key),
            next_faiss_id := s.next_faiss_id + 1,
            inserted := s.inserted + 1,
            embs := s.embs ++ [emb],
            attempts := s.attempts + 1 }
      else
        indexLoop dim skipDuplicates insOk now rest
          { s with attempts := s.attempts + 1 }

/-- Model of `VectorStore.index_chunks`: an empty submission returns 0
immediately; otherwise the per-chunk loop runs and the collected
normalized embeddings are appended to the index in one batch at the
end.  Returns the new state and the inserted count. -/
noncomputable def index_chunks (dim : Nat) (st : VSState)
    (chunks : List EmbChunk) (skipDuplicates : Bool) (insOk : Nat → Bool)
    (now : Nat) : VSState × Nat :=
  if chunks.isEmpty then (st, 0)
  else
    let s := indexLoop dim skipDuplicates insOk now chunks
      ⟨st.meta, st.mapping, st.next_faiss_id, 0, [], 0⟩
    ({ meta := s.meta, mapping := s.mapping,
       next_faiss_id := s.next_faiss_id,
       vectors := st.vectors ++ s.embs }, s.inserted)

/-- Model of `VectorStore.get_indexed_doc_ids`: the distinct truthy
`metadata.source_doc_id` values of the metadata documents whose
`athlete_name` equals the given athlete. -/
def get_indexed_doc_ids (meta : MetaStore) (athleteName : String) :
    List MVal :=
  (((meta.docs.filter (fun m =>
      decide (m.athlete_name = .str athleteName))).map
     (fun m => dictGet m.metadata "source_doc_id")).filter
    MVal.truthy).dedup

/-- The candidate count requested from the faiss index by
`VectorStore.search_similar` (lines 221-222): ten-fold over-fetch when
an athlete filter is set, always capped at the index's vector count. -/
def search_k (athleteName : Option String) (topK ntotal : Nat) : Nat :=
  min (if optStrTruthy athleteName then topK * 10 else topK) ntotal

/-- Lookup in the faiss-id to metadata-key mapping, with the faiss
sentinel id -1 (or any id not in the mapping) yielding nothing. -/
def mappingGet (mapping : List (Nat × String)) (idx : Int) : Option String :=
  (mapping.find? (fun p => (p.1 : Int) == idx)).map (fun p => p.2)

/-- Point lookup of a metadata document by its stringified primary
key. -/
def metaFindByKey (meta : MetaStore) (keyStr : String) : Option MetaDoc :=
  meta.docs.find? (fun m => toString m.key == keyStr)

/-- One search hit of `VectorStore.search_similar`. -/
structure SearchResult where
  chunk : MetaDoc
  similarity : ℝ
  faiss_id : Int

/-- The result loop of `VectorStore.search_similar` (lines 226-260):
skip the -1 sentinel, resolve the metadata key and document (skipping
stale references), apply the athlete filter, and stop once `topK`
results are accumulated. -/
def searchLoop (meta : MetaStore) (mapping : List (Nat × String))
    (athleteName : Option String) (topK : Nat) :
    List (ℝ × Int) → List SearchResult → List SearchResult
  | [], acc => acc
  | (dist, idx) :: rest, acc =>
    if idx = -1 then searchLoop meta mapping athleteName topK rest acc
    else
      match mappingGet mapping idx with
      | none => searchLoop meta mapping athleteName topK rest acc
      | some mid =>
        if mid = "" then searchLoop meta mapping athleteName topK rest acc
        else
          match metaFindByKey meta mid with
          | none => searchLoop meta mapping athleteName topK rest acc
          | some m =>
            if optStrTruthy athleteName &&
                decide (m.athlete_name ≠ .str (athleteName.getD "")) then
              searchLoop meta mapping athleteName topK rest acc
            else
              let acc' := acc ++ [⟨m, dist, idx⟩]
              if topK ≤ acc'.length then acc'
              else searchLoop meta mapping athleteName topK rest acc'

/-- Model of `VectorStore.search_similar`: an empty index yields no
results; otherwise the query is L2-normalized, `search_k` candidates
are requested from the faiss scan (an external collaborator passed as
`faissScan`), and the result loop filters and truncates them. -/
noncomputable def search_similar
    (faissScan : List (List ℝ) → List ℝ → Nat → List (ℝ × Int))
    (st : VSState) (query : List ℝ) (athleteName : Option String)
    (topK : Nat) : List SearchResult :=
  if st.vectors.length = 0 then []
  else
    let qn := normalizeL2 query
    let k := search_k athleteName topK st.vectors.length
    (searchLoop st.meta st.mapping athleteName topK
      (faissScan st.vectors qn k) []).take topK

/-- The readable state of one persisted artifact: absent, present but
unreadable or structurally invalid, or readable with parsed content. -/
inductive FileRead (α : Type) where
  | missing
  | corrupt
  | ok (value : α)
  deriving DecidableEq

/-- The parsed content of the persisted id-mapping artifact: the
id-to-key mapping and the next-id counter. -/
structure MappingData where
  mapping : List (Nat × String)
  next_id : Nat

/-- The two co-located persisted artifacts of the vector index. -/
structure FaissFiles where
  indexFile : FileRead (List (List ℝ))
  mappingFile : FileRead MappingData

/-- How a `VectorStore` load run ended: an existing index was loaded,
no file pair existed and the fresh empty index is kept, or the files
were unreadable and a warning degraded the load to an empty index. -/
inductive LoadLog where
  | loadedExisting
  | freshStart
  | corruptWarning
  deriving DecidableEq, Repr

/-- The index state produced by `VectorStore._load_index` together with
the way the load ended. -/
structure LoadedIndex where
  vectors : List (List ℝ)
  mapping : List (Nat × String)
  next_faiss_id : Nat
  log : LoadLog

/-- Model of `VectorStore._load_index` (lines 54-77): only when both
artifacts exist are they read; a read or parse failure is caught and
degrades to a fresh empty index with a warning; a missing artifact
leaves the constructor's fresh empty index in place.  The function is
total: no outcome is a raised error. -/
def load_index (fs : FaissFiles) : LoadedIndex :=
  match fs.indexFile, fs.mappingFile with
  | .missing, _ => ⟨[], [], 0, .freshStart⟩
  | _, .missing => ⟨[], [], 0, .freshStart⟩
  | .ok v, .ok d => ⟨v, d.mapping, d.next_id, .loadedExisting⟩
  | _, _ => ⟨[], [], 0, .corruptWarning⟩

end VectorStore

namespace FAISSRetriever

open VectorStore (MetaStore MetaDoc mappingGet metaFindByKey FaissFiles
  FileRead MappingData normalizeL2)

open Classical

/-- The retriever state successfully loaded from disk: the faiss index
content and the id-to-key mapping. -/
structure RetLoaded where
  vectors : List (List ℝ)
  mapping : List (Nat × String)

/-- Model of `FAISSRetriever._load_faiss_index` (lines 53-72): a
missing index file raises `FileNotFoundError`; an unreadable index or
mapping file raises, since no handler catches the read; a missing
mapping file raises `FileNotFoundError`. -/
def load_faiss_index (fs : FaissFiles) : Except String RetLoaded :=
  match fs.indexFile with
  | .missing => .error "FileNotFoundError: FAISS-Index nicht gefunden"
  | .corrupt => .error "faiss.read_index raised"
  | .ok v =>
    match fs.mappingFile with
    | .missing => .error "FileNotFoundError: ID-Mapping nicht gefunden"
    | .corrupt => .error "pickle.load raised"
    | .ok d => .ok ⟨v, d.mapping⟩

/-- The candidate count requested from the faiss index by
`FAISSRetriever.retrieve` (line 103): ten-fold over-fetch when an
athlete filter is set, with no cap. -/
def search_k (athleteName : Option String) (topK : Nat) : Nat :=
  if optStrTruthy athleteName then topK * 10 else topK

/-- The nested metadata block of one retrieved chunk
(lines 132-137). -/
structure RetrievedMeta where
  topic : MVal
  url : MVal
  title : MVal
  source_doc_id : MVal

/-- One result of `FAISSRetriever.retrieve` (lines 128-138). -/
structure RetrievedChunk where
  text : String
  athlete_name : MVal
  similarity : ℝ
  metadata : RetrievedMeta

/-- The result record built from a resolved metadata document. -/
def mkRetrieved (m : MetaDoc) (sim : ℝ) : RetrievedChunk :=
  { text := m.text, athlete_name := m.athlete_name, similarity := sim,
    metadata := { topic := dictGet m.metadata "topic",
                  url := dictGet m.metadata "url",
                  title := dictGet m.metadata "title",
                  source_doc_id := dictGet m.metadata "source_doc_id" } }

/-- The result loop of `FAISSRetriever.retrieve` (lines 107-146):
candidates below the similarity threshold are skipped, stale mapping
entries and missing documents are skipped, the athlete filter is
applied, and the loop stops once `topK` results are accumulated.
Comparison of real similarity scores is classical. -/
noncomputable def retrieveLoop (meta : MetaStore)
    (mapping : List (Nat × String)) (athleteName : Option String)
    (topK : Nat) (minSimilarity : ℝ) :
    List (Int × ℝ) → List RetrievedChunk → List RetrievedChunk
  | [], acc => acc
  | (idx, sim) :: rest, acc =>
    if sim < minSimilarity then
      retrieveLoop meta mapping athleteName topK minSimilarity rest acc
    else
      match mappingGet mapping idx with
      | none => retrieveLoop meta mapping athleteName topK minSimilarity rest acc
      | some mid =>
        if mid = "" then
          retrieveLoop meta mapping athleteName topK minSimilarity rest acc
        else
          match metaFindByKey meta mid with
          | none =>
            retrieveLoop meta mapping athleteName topK minSimilarity rest acc
          | some m =>
            if optStrTruthy athleteName &&
                decide (m.athlete_name ≠ .str (athleteName.getD "")) then
              retrieveLoop meta mapping athleteName topK minSimilarity rest acc
            else
              let acc' := acc ++ [mkRetrieved m sim]
              if topK ≤ acc'.length then acc'
              else retrieveLoop meta mapping athleteName topK minSimilarity
                rest acc'

/-- Model of `FAISSRetriever.retrieve`: the query is embedded and
L2-normalized, `search_k` candidates are requested from the loaded
faiss index (an external collaborator passed as `faissScan`, taking the
normalized query and the requested count), and the result loop filters
them. -/
noncomputable def retrieve (embed : String → List ℝ)
    (faissScan : List ℝ → Nat → List (Int × ℝ)) (meta : MetaStore)
    (mapping : List (Nat × String)) (query : String)
    (athleteName : Option String) (topK : Nat) (minSimilarity : ℝ) :
    List RetrievedChunk :=
  let qn := normalizeL2 (embed query)
  let k := search_k athleteName topK
  retrieveLoop meta mapping athleteName topK minSimilarity
    (faissScan qn k) []

end FAISSRetriever

namespace AthleteIndexingPipeline

open VectorStore (MetaStore MetaDoc EmbChunk VSState)

/-- The `metadata` sub-object of one entry of a raw document's `web`
array. -/
structure WebMeta where
  sourceURL : Option String
  title : Option String
  statusCode : MVal
  deriving DecidableEq, Repr

/-- One entry of a raw document's `web` array. -/
structure WebItem where
  markdown : Option String
  html : Option String
  rawHtml : Option String
  metadata : WebMeta
  deriving DecidableEq, Repr

/-- A raw source document of the crawler collection, in the nested
shape documented at `fetch_documents` (lines 63-77). -/
structure RawDoc where
  idStr : String
  athlete_name : Option String
  topic : Option String
  web : List WebItem
  deriving DecidableEq, Repr

/-- A flattened passage as produced by `fetch_documents`
(lines 129-141); `idStr` models the `_id` field. -/
structure ProcDoc where
  idStr : String
  markdown : String
  athlete_name : String
  topic : String
  url : String
  title : String
  status_code : MVal
  scraped_at : Nat
  created_at : Nat
  web_index : Nat
  original_doc_id : String
  deriving DecidableEq, Repr

/-- The text extracted from one web entry (lines 118-120): markdown
with fallback to html and then rawHtml, empty string when all are
falsy. -/
def webText (w : WebItem) : String :=
  pyOrStr w.markdown (pyOrStr w.html (w.rawHtml.getD ""))

/-- Processing of one web entry by `fetch_documents` (lines 116-143):
entries whose text is falsy or whose stripped text is shorter than 100
characters are dropped; the rest become flattened passages whose id is
the raw document id joined with the entry position. -/
def processWebItem (doc : RawDoc) (idx : Nat) (w : WebItem) (now : Nat) :
    Option ProcDoc :=
  let text := webText w
  if text = "" ∨ (pyStrip text).length < 100 then none
  else some
    { idStr := doc.idStr ++ "_" ++ toString idx,
      markdown := text,
      athlete_name := doc.athlete_name.getD "Unknown",
      topic := doc.topic.getD "unknown",
      url := w.metadata.sourceURL.getD "",
      title := w.metadata.title.getD "",
      status_code := w.metadata.statusCode,
      scraped_at := now, created_at := now,
      web_index := idx, original_doc_id := doc.idStr }

/-- The flattened passages extracted for one athlete before the
skip-indexed filter: all raw documents matching the athlete query, each
web entry flattened by `processWebItem`. -/
def processedFor (source : List RawDoc) (athleteName : String) (now : Nat) :
    List ProcDoc :=
  ((source.filter (fun d => decide (d.athlete_name = some athleteName))).map
    (fun d => d.web.enum.filterMap
      (fun p => processWebItem d p.1 p.2 now))).flatten

/-- Model of `AthleteIndexingPipeline.fetch_documents`: passages of the
matching raw documents are flattened; when `skipIndexed` is set and the
already-indexed source-document-id set is non-empty, passages whose id
is in that set are excluded. -/
def fetch_documents (source : List RawDoc) (meta : MetaStore)
    (athleteName : String) (skipIndexed : Bool) (now : Nat) :
    List ProcDoc :=
  let raw := source.filter (fun d => decide (d.athlete_name = some athleteName))
  if raw.isEmpty then []
  else
    let processed :=
      (raw.map (fun d => d.web.enum.filterMap
        (fun p => processWebItem d p.1 p.2 now))).flatten
    if skipIndexed then
      let indexed := VectorStore.get_indexed_doc_ids meta athleteName
      if indexed ≠ [] then
        processed.filter (fun d => decide (MVal.str d.idStr ∉ indexed))
      else processed
    else processed

/-- The chunk metadata dict built by `TextChunker.split_documents`
(lines 163-171) for one flattened passage. -/
def docMetadata (doc : ProcDoc) : Dict :=
  [("source_doc_id", .str doc.idStr),
   ("athlete_name", .str doc.athlete_name),
   ("topic", .str doc.topic),
   ("url", .str doc.url),
   ("title", .str doc.title),
   ("scraped_at", .nat doc.scraped_at),
   ("created_at", .nat doc.created_at)]

/-- Model of `TextChunker.split_documents` specialised to the flattened
passages the pipeline feeds it (text field `markdown`; the `text` /
`content` fallbacks of the source are absent on these documents, so a
falsy markdown drops the document). -/
def split_documents (encode : String → List Nat)
    (decode : List Nat → String) (chunkSize chunkOverlap : Nat)
    (documents : List ProcDoc) (prependMeta : Bool) :
    List TextChunker.TextChunk :=
  (documents.map (fun doc =>
    if doc.markdown = "" then []
    else TextChunker.split_text encode decode chunkSize chunkOverlap
      doc.markdown (docMetadata doc) prependMeta)).flatten

/-- A chunk dictionary as built by
`AthleteIndexingPipeline.split_into_chunks` (lines 184-190). -/
structure ChunkDict where
  text : String
  metadata : Dict
  chunk_index : Nat
  token_count : Nat
  athlete_name : MVal
  deriving DecidableEq, Repr

/-- Model of `AthleteIndexingPipeline.split_into_chunks`: every text
chunk becomes a dictionary carrying the chunk fields plus the athlete
name read back from the chunk metadata. -/
def split_into_chunks (encode : String → List Nat)
    (decode : List Nat → String) (chunkSize chunkOverlap : Nat)
    (prependMeta : Bool) (documents : List ProcDoc) : List ChunkDict :=
  (split_documents encode decode chunkSize chunkOverlap documents
    prependMeta).map (fun c =>
      { text := c.text, metadata := c.metadata,
        chunk_index := c.chunk_index, token_count := c.token_count,
        athlete_name := dictGet c.metadata "athlete_name" })

/-- Model of `EmbeddingGenerator.embed_chunks`: every chunk is enriched
with the embedding of its text (the embedding model is an external pure
function), the model name and the model's reported dimension. -/
noncomputable def embed_chunks (embed : String → List ℝ)
    (modelName : String) (modelDim : Nat) (chunks : List ChunkDict) :
    List EmbChunk :=
  chunks.map (fun c =>
    { text := c.text, metadata := c.metadata,
      chunk_index := c.chunk_index, token_count := c.token_count,
      athlete_name := c.athlete_name, embedding := embed c.text,
      embedding_model := modelName, embedding_dimension := modelDim })

/-- The per-run statistics record returned by the pipeline.  Error
entries of a batch run carry only the athlete name, the status and the
message, so the other fields are optional.  Wall-clock duration is not
modelled and is reported as zero. -/
structure RunStats where
  athlete_name : String
  documents_loaded : Option Nat
  chunks_created : Option Nat
  chunks_indexed : Option Nat
  duration_seconds : Option Nat
  status : String
  error : Option String
  deriving DecidableEq, Repr

/-- The external collaborators and configuration of one pipeline
instance: the tokenizer pair, the chunking parameters, the embedding
model, the store dimension, the metadata-insert success oracle and the
current time. -/
structure PipeEnv where
  encode : String → List Nat
  decode : List Nat → String
  chunkSize : Nat
  chunkOverlap : Nat
  prependMeta : Bool
  embed : String → List ℝ
  modelName : String
  dim : Nat
  insOk : Nat → Bool
  now : Nat

/-- The mutable state a pipeline run touches: the raw source collection
(read only) and the vector store. -/
structure PipeSt where
  source : List RawDoc
  vs : VSState

/-- Model of `AthleteIndexingPipeline.process_athlete_indexing`: fetch,
split, embed and index, with the early-exit statistics of the source
(lines 258-281) when no documents or no chunks are produced. -/
noncomputable def process_athlete_indexing (env : PipeEnv)
    (athleteName : String) (skipIndexed : Bool) (st : PipeSt) :
    RunStats × PipeSt :=
  let documents := fetch_documents st.source st.vs.meta athleteName
    skipIndexed env.now
  if documents.isEmpty then
    (⟨athleteName, some 0, some 0, some 0, some 0,
      "no_new_documents", none⟩, st)
  else
    let chunks := split_into_chunks env.encode env.decode env.chunkSize
      env.chunkOverlap env.prependMeta documents
    if chunks.isEmpty then
      (⟨athleteName, some documents.length, some 0, some 0, some 0,
        "no_chunks_created", none⟩, st)
    else
      let enriched := embed_chunks env.embed env.modelName env.dim chunks
      let r := VectorStore.index_chunks env.dim st.vs enriched true
        env.insOk env.now
      (⟨athleteName, some documents.length, some chunks.length,
        some r.2, some 0, "success", none⟩,
       ⟨st.source, r.1⟩)

/-- Model of `AthleteIndexingPipeline.process_all_athletes`
(lines 306-342).  One entity's run is `runOne`, a fallible function
standing for `process_athlete_indexing` together with the external
collaborators (database, embedding service) that may raise during it;
it returns the outcome and the (possibly partially mutated) state.  A
failure is caught and recorded as an error entry and the batch
continues with the remaining entities. -/
def process_all_athletes
    (runOne : String → PipeSt → Except String RunStats × PipeSt) :
    List String → PipeSt → List RunStats × PipeSt
  | [], st => ([], st)
  | n :: rest, st =>
    let r := runOne n st
    let entry := match r.1 with
      | .ok stats => stats
      | .error msg => ⟨n, none, none, none, none, "error", some msg⟩
    let batch := process_all_athletes runOne rest r.2
    (entry :: batch.1, batch.2)

end AthleteIndexingPipeline

/-! ### Dictionary lemmas -/

theorem dictGet_insert_self (m : Dict) (k : String) (v : MVal) :
    dictGet (dictInsert m k v) k = v := by
  unfold dictInsert
  by_cases hany : m.any (fun p => p.1 == k) = true
  · rw [if_pos hany]
    induction m with
    | nil => simp at hany
    | cons p t ih =>
      by_cases hp : p.1 == k
      · simp [dictGet, List.find?, hp]
      · have ht : t.any (fun q => q.1 == k) = true := by
          simpa [hp] using hany
        simpa [dictGet, List.find?, hp] using ih ht
  · rw [if_neg hany]
    have hnone : m.find? (fun p => p.1 == k) = none := by
      rw [List.find?_eq_none]
      intro p hp hpk
      exact hany (List.any_eq_true.mpr ⟨p, hp, hpk⟩)
    simp [dictGet, List.find?_append, hnone]

theorem find?_map_insert_ne (m : Dict) (k k' : String) (v : MVal)
    (h : k' ≠ k) :
    (m.map (fun p => if p.1 == k then (k, v) else p)).find?
        (fun p => p.1 == k') =
      m.find? (fun p => p.1 == k') := by
  induction m with
  | nil => rfl
  | cons p t ih =>
    by_cases hp : (p.1 == k) = true
    · have hp' : p.1 = k := by simpa using hp
      have hk : ¬((k : String) == k') = true := by
        simpa using fun hh => h hh.symm
      have hpk' : ¬(p.1 == k') = true := by simpa [hp'] using hk
      simpa [List.find?, hp, hk, hpk'] using ih
    · by_cases hk' : (p.1 == k') = true
      · simp [List.find?, hp, hk']
      · simpa [List.find?, hp, hk'] using ih

theorem dictGet_insert_ne (m : Dict) (k k' : String) (v : MVal)
    (h : k' ≠ k) : dictGet (dictInsert m k v) k' = dictGet m k' := by
  unfold dictInsert
  by_cases hany : m.any (fun p => p.1 == k) = true
  · rw [if_pos hany]
    unfold dictGet
    rw [find?_map_insert_ne m k k' v h]
  · rw [if_neg hany]
    unfold dictGet
    rw [List.find?_append]
    have : ([(k, v)] : Dict).find? (fun p => p.1 == k') = none := by
      simp [List.find?, show ¬((k : String) == k') = true by
        simpa using fun hh => h hh.symm]
    rw [this, Option.or_none]

theorem dictHasKey_insert_self (m : Dict) (k : String) (v : MVal) :
    dictHasKey (dictInsert m k v) k = true := by
  unfold dictInsert dictHasKey
  by_cases hany : m.any (fun p => p.1 == k) = true
  · rw [if_pos hany]
    rw [List.any_eq_true] at hany ⊢
    obtain ⟨p, hp, hpk⟩ := hany
    exact ⟨(k, v), List.mem_map.mpr ⟨p, hp, by simp [hpk]⟩, by simp⟩
  · rw [if_neg hany]
    simp

/-! ### Claim C2: candidate count requested from the index -/

/-- Claim C2 (corrected), counterexample to the claim as stated: with
an entity filter set, `top_k = 1` and an index holding a single vector,
the Retriever (`FAISSRetriever.retrieve`, line 103) requests 10
candidates from the index, not the claimed `min(top_k × 10, ntotal) =
1`: the cap at the index's total vector count is absent there. -/
theorem C2_counterexample :
    FAISSRetriever.search_k (some "A") 1 = 10 ∧
      FAISSRetriever.search_k (some "A") 1 ≠ min (1 * 10) 1 := by
  constructor
  · rfl
  · decide

/-- Claim C2 (amended): with a non-empty entity filter the Retriever
requests `top_k × 10` candidates with no cap, while the vector store's
own `search_similar` requests `top_k × 10` capped at the index's total
vector count; without a filter the Retriever requests exactly `top_k`
and `search_similar` requests `top_k` capped at the total vector
count. -/
theorem C2_amended (E : String) (topK ntotal : Nat) (hE : E ≠ "") :
    (FAISSRetriever.search_k (some E) topK = topK * 10 ∧
      VectorStore.search_k (some E) topK ntotal = min (topK * 10) ntotal) ∧
    FAISSRetriever.search_k none topK = topK ∧
    VectorStore.search_k none topK ntotal = min topK ntotal := by
  refine ⟨⟨?_, ?_⟩, rfl, rfl⟩ <;>
    simp [FAISSRetriever.search_k, VectorStore.search_k, optStrTruthy, hE]

/-- Witness for C2_amended at a concrete input. -/
theorem C2_amended_witness :
    ("A" : String) ≠ "" ∧ FAISSRetriever.search_k (some "A") 3 = 3 * 10 :=
  ⟨by decide, (C2_amended "A" 3 1 (by decide)).1.1⟩

/-! ### Claim C3: loading the persisted index -/

/-- Claim C3 (corrected), counterexample to the claim as stated: the
retriever's load of the persisted vector index
(`FAISSRetriever._load_faiss_index`) raises `FileNotFoundError` when
the persisted artifacts are absent, rather than starting from an empty
index. -/
theorem C3_counterexample :
    FAISSRetriever.load_faiss_index ⟨.missing, .missing⟩ =
      .error "FileNotFoundError: FAISS-Index nicht gefunden" := rfl

/-- Claim C3 (amended): `VectorStore._load_index` behaves as the claim
says — a missing artifact (either one) yields the fresh empty index
with next-id 0 and no error, both artifacts present but either
unreadable yields the empty index with a warning, and only a readable
pair loads — but `FAISSRetriever._load_faiss_index` instead raises when
either artifact is absent. -/
theorem C3_amended (v : List (List ℝ)) (d : VectorStore.MappingData)
    (vf : VectorStore.FileRead (List (List ℝ)))
    (mf : VectorStore.FileRead VectorStore.MappingData) :
    VectorStore.load_index ⟨.missing, mf⟩ = ⟨[], [], 0, .freshStart⟩ ∧
    VectorStore.load_index ⟨vf, .missing⟩ = ⟨[], [], 0, .freshStart⟩ ∧
    VectorStore.load_index ⟨.corrupt, .ok d⟩ =
      ⟨[], [], 0, .corruptWarning⟩ ∧
    VectorStore.load_index ⟨.ok v, .corrupt⟩ =
      ⟨[], [], 0, .corruptWarning⟩ ∧
    VectorStore.load_index ⟨.corrupt, .corrupt⟩ =
      ⟨[], [], 0, .corruptWarning⟩ ∧
    VectorStore.load_index ⟨.ok v, .ok d⟩ =
      ⟨v, d.mapping, d.next_id, .loadedExisting⟩ ∧
    FAISSRetriever.load_faiss_index ⟨.missing, mf⟩ =
      .error "FileNotFoundError: FAISS-Index nicht gefunden" ∧
    FAISSRetriever.load_faiss_index ⟨.ok v, .missing⟩ =
      .error "FileNotFoundError: ID-Mapping nicht gefunden" := by
  refine ⟨?_, ?_, rfl, rfl, rfl, rfl, ?_, rfl⟩ <;> cases mf <;>
    first
      | rfl
      | (cases vf <;> rfl)

/-! ### Claim C8: dense, zero-based, strictly increasing vector ids -/

namespace VectorStore

theorem mapInsert_fresh (m : List (Nat × String)) (k : Nat) (v : String)
    (h : m.map Prod.fst = List.range k) :
    mapInsert m k v = m ++ [(k, v)] := by
  unfold mapInsert
  rw [if_neg]
  intro hany
  rw [List.any_eq_true] at hany
  obtain ⟨p, hp, hpk⟩ := hany
  have hk : k ∈ m.map Prod.fst :=
    List.mem_map.mpr ⟨p, hp, by simpa using hpk⟩
  rw [h, List.mem_range] at hk
  omega

theorem indexLoop_ids (dim : Nat) (skipDup : Bool) (insOk : Nat → Bool)
    (now : Nat) (chunks : List EmbChunk) (s : IndexLoopSt) (base : Nat)
    (h1 : s.mapping.map Prod.fst = List.range s.next_faiss_id)
    (h2 : s.next_faiss_id = base + s.embs.length) :
    ((indexLoop dim skipDup insOk now chunks s).mapping.map Prod.fst =
      List.range (indexLoop dim skipDup insOk now chunks s).next_faiss_id) ∧
    (indexLoop dim skipDup insOk now chunks s).next_faiss_id =
      base + (indexLoop dim skipDup insOk now chunks s).embs.length := by
  induction chunks generalizing s with
  | nil => exact ⟨h1, h2⟩
  | cons c rest ih =>
    simp only [indexLoop]
    split
    · exact ih s h1 h2
    · split
      · exact ih s h1 h2
      · split
        · apply ih
          · simp only [mapInsert_fresh s.mapping s.next_faiss_id _ h1,
              List.map_append, h1, List.map_cons, List.map_nil]
            exact (List.range_succ s.next_faiss_id).symm
          · simp only [List.length_append, List.length_cons,
              List.length_nil]
            omega
        · exact ih _ h1 h2

end VectorStore

/-- Claim C8: when the invariant that the id-mapping's keys are exactly
`0, 1, …, next_faiss_id - 1` and that `next_faiss_id` equals the
index's vector count holds before a call, `index_chunks` preserves it —
for any chunk list, any duplicate-skip flag and any pattern of
metadata-insert failures.  In particular internal ids stay dense,
zero-based and strictly increasing, each newly indexed vector's id
equals its final position in the index, and
`next_faiss_id = number of vectors = number of mapping entries`
afterwards. -/
theorem C8_dense_ids (dim now : Nat) (st : VectorStore.VSState)
    (chunks : List VectorStore.EmbChunk) (skipDup : Bool)
    (insOk : Nat → Bool)
    (h1 : st.mapping.map Prod.fst = List.range st.next_faiss_id)
    (h2 : st.next_faiss_id = st.vectors.length) :
    ((VectorStore.index_chunks dim st chunks skipDup insOk now).1.mapping.map
        Prod.fst =
      List.range (VectorStore.index_chunks dim st chunks skipDup insOk
        now).1.next_faiss_id) ∧
    (VectorStore.index_chunks dim st chunks skipDup insOk
        now).1.next_faiss_id =
      (VectorStore.index_chunks dim st chunks skipDup insOk
        now).1.vectors.length ∧
    (VectorStore.index_chunks dim st chunks skipDup insOk
        now).1.mapping.length =
      (VectorStore.index_chunks dim st chunks skipDup insOk
        now).1.vectors.length := by
  unfold VectorStore.index_chunks
  split
  · exact ⟨h1, h2, by
      have := congrArg List.length h1
      simpa using this.trans (by simp [h2])⟩
  · have key := VectorStore.indexLoop_ids dim skipDup insOk now chunks
      ⟨st.meta, st.mapping, st.next_faiss_id, 0, [], 0⟩ st.vectors.length
      h1 (by simpa using h2)
    refine ⟨key.1, ?_, ?_⟩
    · simpa using key.2
    · have := congrArg List.length key.1
      simp only [List.length_map, List.length_range] at this
      simpa [this] using key.2

/-- Witness for C8_dense_ids at a concrete input: an empty store, two
valid one-dimensional chunks, and an oracle that fails the first
metadata insert mid-batch. -/
theorem C8_dense_ids_witness :
    (([] : List (Nat × String)).map Prod.fst = List.range 0 ∧
      (0 : Nat) = ([] : List (List ℝ)).length) ∧
    ((VectorStore.index_chunks 1
        ⟨⟨[], 0⟩, [], 0, []⟩
        [⟨"a", [], 0, 1, .null, [(1 : ℝ)], "m", 1⟩,
         ⟨"b", [], 1, 1, .null, [(2 : ℝ)], "m", 1⟩]
        true (fun i => decide (i ≠ 0)) 7).1.mapping.map Prod.fst =
      List.range (VectorStore.index_chunks 1
        ⟨⟨[], 0⟩, [], 0, []⟩
        [⟨"a", [], 0, 1, .null, [(1 : ℝ)], "m", 1⟩,
         ⟨"b", [], 1, 1, .null, [(2 : ℝ)], "m", 1⟩]
        true (fun i => decide (i ≠ 0)) 7).1.next_faiss_id) :=
  ⟨⟨rfl, rfl⟩,
   (C8_dense_ids 1 7 ⟨⟨[], 0⟩, [], 0, []⟩
      [⟨"a", [], 0, 1, .null, [(1 : ℝ)], "m", 1⟩,
       ⟨"b", [], 1, 1, .null, [(2 : ℝ)], "m", 1⟩]
      true (fun i => decide (i ≠ 0)) rfl rfl).1⟩

/-! ### Claim C4: duplicate suppression on (source_doc_id, chunk_index) -/

namespace VectorStore

theorem index_chunks_singleton_insert (dim now : Nat) (st : VSState)
    (c : EmbChunk)
    (hdup : findDuplicate st.meta (dictGet c.metadata "source_doc_id")
      c.chunk_index = none)
    (hlen : c.embedding.length = dim) (hdim : dim ≠ 0) :
    index_chunks dim st [c] true (fun _ => true) now =
      (⟨⟨st.meta.docs ++ [chunkMetaDoc c st.next_faiss_id st.meta.nextKey
            now],
         st.meta.nextKey + 1⟩,
        mapInsert st.mapping st.next_faiss_id (toString st.meta.nextKey),
        st.next_faiss_id + 1,
        st.vectors ++ [normalizeL2 c.embedding]⟩, 1) := by
  unfold index_chunks
  rw [if_neg (by simp)]
  have hloop : indexLoop dim true (fun _ => true) now [c]
      ⟨st.meta, st.mapping, st.next_faiss_id, 0, [], 0⟩ =
      ⟨⟨st.meta.docs ++ [chunkMetaDoc c st.next_faiss_id st.meta.nextKey
          now], st.meta.nextKey + 1⟩,
       mapInsert st.mapping st.next_faiss_id (toString st.meta.nextKey),
       st.next_faiss_id + 1, 1, [normalizeL2 c.embedding], 1⟩ := by
    simp only [indexLoop, hdup, Option.isSome_none, Bool.and_false,
      Bool.false_eq_true, if_false]
    rw [if_neg (by simp [hlen, hdim])]
    simp [indexLoop]
  rw [hloop]

theorem index_chunks_singleton_dup (dim now : Nat) (st : VSState)
    (c : EmbChunk) (insOk : Nat → Bool)
    (hdup : (findDuplicate st.meta (dictGet c.metadata "source_doc_id")
      c.chunk_index).isSome = true) :
    index_chunks dim st [c] true insOk now = (st, 0) := by
  unfold index_chunks
  rw [if_neg (by simp)]
  have hloop : indexLoop dim true insOk now [c]
      ⟨st.meta, st.mapping, st.next_faiss_id, 0, [], 0⟩ =
      ⟨st.meta, st.mapping, st.next_faiss_id, 0, [], 0⟩ := by
    simp only [indexLoop, hdup, Bool.and_true, if_true]
  rw [hloop]
  simp

end VectorStore

/-- Claim C4: with `skip_duplicates = true`, submitting the same
`(source_doc_id, chunk_index)` pair twice (a valid-dimension chunk with
no pre-existing duplicate, indexed once and then again) inserts one
metadata document and appends one vector in total: the first call
reports 1 inserted chunk and grows both stores by one, the second call
reports 0 and changes nothing. -/
theorem C4_duplicate_suppression (dim now now2 : Nat)
    (st : VectorStore.VSState) (c : VectorStore.EmbChunk)
    (hdup : VectorStore.findDuplicate st.meta
      (dictGet c.metadata "source_doc_id") c.chunk_index = none)
    (hlen : c.embedding.length = dim) (hdim : dim ≠ 0) :
    (VectorStore.index_chunks dim st [c] true (fun _ => true) now).2 = 1 ∧
    (VectorStore.index_chunks dim st [c] true (fun _ => true)
        now).1.meta.docs.length = st.meta.docs.length + 1 ∧
    (VectorStore.index_chunks dim st [c] true (fun _ => true)
        now).1.vectors.length = st.vectors.length + 1 ∧
    VectorStore.index_chunks dim
        (VectorStore.index_chunks dim st [c] true (fun _ => true) now).1
        [c] true (fun _ => true) now2 =
      ((VectorStore.index_chunks dim st [c] true (fun _ => true) now).1,
        0) := by
  rw [VectorStore.index_chunks_singleton_insert dim now st c hdup hlen hdim]
  refine ⟨rfl, by simp, by simp, ?_⟩
  apply VectorStore.index_chunks_singleton_dup
  unfold VectorStore.findDuplicate at hdup ⊢
  simp only [List.find?_append, hdup, Option.none_or]
  simp [VectorStore.chunkMetaDoc]

/-- Witness for C4_duplicate_suppression at a concrete input. -/
theorem C4_duplicate_suppression_witness :
    (VectorStore.findDuplicate ⟨[], 0⟩
        (dictGet [("source_doc_id", .str "d_0")] "source_doc_id") 0 =
        none ∧
      ([(1 : ℝ)] : List ℝ).length = 1 ∧ (1 : Nat) ≠ 0) ∧
    (VectorStore.index_chunks 1 ⟨⟨[], 0⟩, [], 0, []⟩
        [⟨"t", [("source_doc_id", .str "d_0")], 0, 1, .null, [(1 : ℝ)],
          "m", 1⟩] true (fun _ => true) 5).2 = 1 :=
  ⟨⟨rfl, rfl, by decide⟩,
   (C4_duplicate_suppression 1 5 6 ⟨⟨[], 0⟩, [], 0, []⟩
      ⟨"t", [("source_doc_id", .str "d_0")], 0, 1, .null, [(1 : ℝ)],
        "m", 1⟩ rfl rfl (by decide)).1⟩

/-! ### Claim C7: unit-norm vectors in the index -/

namespace VectorStore

theorem l2normSq_nonneg (v : List ℝ) : 0 ≤ l2normSq v := by
  apply List.sum_nonneg
  intro x hx
  rw [List.mem_map] at hx
  obtain ⟨y, _, rfl⟩ := hx
  exact mul_self_nonneg y

theorem l2normSq_map_div (v : List ℝ) (s : ℝ) :
    l2normSq (v.map (fun x => x / s)) = l2normSq v / (s * s) := by
  induction v with
  | nil => simp [l2normSq]
  | cons x t ih =>
    simp only [l2normSq, List.map_cons, List.map_map, List.sum_cons] at ih ⊢
    rw [show ((fun x => x * x) ∘ fun x => x / s) = fun x => x / s * (x / s)
        from rfl] at ih ⊢
    rw [ih, div_mul_div_comm, add_div]

theorem l2normSq_normalizeL2 (v : List ℝ) (h : l2normSq v ≠ 0) :
    l2normSq (normalizeL2 v) = 1 := by
  unfold normalizeL2
  rw [l2normSq_map_div, Real.mul_self_sqrt (l2normSq_nonneg v),
    div_self h]

theorem indexLoop_embs_normalized (dim : Nat) (skipDup : Bool)
    (insOk : Nat → Bool) (now : Nat) (chunks : List EmbChunk)
    (s : IndexLoopSt) :
    ∀ v ∈ (indexLoop dim skipDup insOk now chunks s).embs,
      v ∈ s.embs ∨ ∃ c ∈ chunks, v = normalizeL2 c.embedding := by
  induction chunks generalizing s with
  | nil =>
    intro v hv
    exact Or.inl hv
  | cons c rest ih =>
    intro v hv
    simp only [indexLoop] at hv
    rcases hv' : skipDup &&
        (findDuplicate s.meta (dictGet c.metadata "source_doc_id")
          c.chunk_index).isSome with _ | _
    all_goals rw [hv'] at hv
    · simp only [Bool.false_eq_true, if_false] at hv
      split at hv
      · rcases ih s v hv with h | ⟨c', hc', rfl⟩
        · exact Or.inl h
        · exact Or.inr ⟨c', List.mem_cons_of_mem c hc', rfl⟩
      · split at hv
        · rcases ih _ v hv with h | ⟨c', hc', rfl⟩
          · rcases List.mem_append.mp h with h | h
            · exact Or.inl h
            · simp only [List.mem_singleton] at h
              exact Or.inr ⟨c, List.mem_cons_self c rest, h⟩
          · exact Or.inr ⟨c', List.mem_cons_of_mem c hc', rfl⟩
        · rcases ih _ v hv with h | ⟨c', hc', rfl⟩
          · exact Or.inl h
          · exact Or.inr ⟨c', List.mem_cons_of_mem c hc', rfl⟩
    · simp only [if_true] at hv
      rcases ih s v hv with h | ⟨c', hc', rfl⟩
      · exact Or.inl h
      · exact Or.inr ⟨c', List.mem_cons_of_mem c hc', rfl⟩

end VectorStore

/-- Claim C7: every vector appended to the index by `index_chunks` is
the L2 normalization of a submitted embedding; L2 normalization yields
a vector of unit (squared) norm whenever the input has non-zero norm;
and `search_similar` consults the index only through the L2-normalized
query, so two queries with the same normalization search
identically. -/
theorem C7_unit_norm :
    (∀ (dim now : Nat) (st : VectorStore.VSState)
        (chunks : List VectorStore.EmbChunk) (skipDup : Bool)
        (insOk : Nat → Bool),
      (VectorStore.index_chunks dim st chunks skipDup insOk
          now).1.vectors.Forall
        (fun v => v ∈ st.vectors ∨
          ∃ c ∈ chunks, v = VectorStore.normalizeL2 c.embedding)) ∧
    (∀ v : List ℝ, VectorStore.l2normSq v ≠ 0 →
      VectorStore.l2normSq (VectorStore.normalizeL2 v) = 1) ∧
    (∀ (faissScan : List (List ℝ) → List ℝ → Nat → List (ℝ × Int))
        (st : VectorStore.VSState) (q q' : List ℝ)
        (A : Option String) (topK : Nat),
      VectorStore.normalizeL2 q = VectorStore.normalizeL2 q' →
      VectorStore.search_similar faissScan st q A topK =
        VectorStore.search_similar faissScan st q' A topK) := by
  refine ⟨?_, VectorStore.l2normSq_normalizeL2, ?_⟩
  · intro dim now st chunks skipDup insOk
    rw [List.forall_iff_forall_mem]
    intro v hv
    unfold VectorStore.index_chunks at hv
    split at hv
    · exact Or.inl hv
    · simp only at hv
      rcases List.mem_append.mp hv with h | h
      · exact Or.inl h
      · rcases VectorStore.indexLoop_embs_normalized dim skipDup insOk now
            chunks ⟨st.meta, st.mapping, st.next_faiss_id, 0, [], 0⟩ v h
          with h' | h'
        · simp at h'
        · exact Or.inr h'
  · intro faissScan st q q' A topK h
    unfold VectorStore.search_similar
    rw [h]

/-- Witness for C7_unit_norm at concrete inputs: the vector (3, 4) has
non-zero squared norm, so its normalization has unit squared norm, and
the queries (2, 0) and (1, 0) normalize identically, so they search
identically. -/
theorem C7_unit_norm_witness :
    (VectorStore.l2normSq [(3 : ℝ), 4] ≠ 0 ∧
      VectorStore.l2normSq
        (VectorStore.normalizeL2 [(3 : ℝ), 4]) = 1) ∧
    (VectorStore.normalizeL2 [(2 : ℝ), 0] =
        VectorStore.normalizeL2 [(1 : ℝ), 0] ∧
      VectorStore.search_similar (fun _ _ _ => []) ⟨⟨[], 0⟩, [], 0, []⟩
          [(2 : ℝ), 0] none 1 =
        VectorStore.search_similar (fun _ _ _ => []) ⟨⟨[], 0⟩, [], 0, []⟩
          [(1 : ℝ), 0] none 1) := by
  have h34 : VectorStore.l2normSq [(3 : ℝ), 4] ≠ 0 := by
    norm_num [VectorStore.l2normSq]
  have hq : VectorStore.normalizeL2 [(2 : ℝ), 0] =
      VectorStore.normalizeL2 [(1 : ℝ), 0] := by
    simp [VectorStore.normalizeL2, VectorStore.l2normSq]
  exact ⟨⟨h34, C7_unit_norm.2.1 [(3 : ℝ), 4] h34⟩,
    ⟨hq, C7_unit_norm.2.2 (fun _ _ _ => []) ⟨⟨[], 0⟩, [], 0, []⟩
      [(2 : ℝ), 0] [(1 : ℝ), 0] none 1 hq⟩⟩

/-! ### Claim C5: the entity filter is exhaustive -/

theorem retrieveLoop_filter (meta : VectorStore.MetaStore)
    (mapping : List (Nat × String)) (E : String) (topK : Nat)
    (minSim : ℝ) (cands : List (Int × ℝ))
    (acc : List FAISSRetriever.RetrievedChunk) (hE : E ≠ "")
    (hacc : ∀ r ∈ acc, r.athlete_name = .str E) :
    ∀ r ∈ FAISSRetriever.retrieveLoop meta mapping (some E) topK minSim
        cands acc,
      r.athlete_name = .str E := by
  induction cands generalizing acc with
  | nil => exact hacc
  | cons p rest ih =>
    obtain ⟨idx, sim⟩ := p
    simp only [FAISSRetriever.retrieveLoop]
    split
    · exact ih acc hacc
    · split
      · exact ih acc hacc
      · rename_i mid
        split
        · exact ih acc hacc
        · split
          · exact ih acc hacc
          · rename_i m heq
            split
            · exact ih acc hacc
            · rename_i hcond
              have hm : m.athlete_name = .str E := by
                by_contra hne
                exact hcond (by simp [optStrTruthy, hE, hne])
              have hacc' : ∀ r ∈ acc ++ [FAISSRetriever.mkRetrieved m sim],
                  r.athlete_name = .str E := by
                intro r hr
                rcases List.mem_append.mp hr with h | h
                · exact hacc r h
                · simp only [List.mem_singleton] at h
                  subst h
                  exact hm
              split
              · exact hacc'
              · exact ih _ hacc'

theorem searchLoop_filter (meta : VectorStore.MetaStore)
    (mapping : List (Nat × String)) (E : String) (topK : Nat)
    (cands : List (ℝ × Int)) (acc : List VectorStore.SearchResult)
    (hE : E ≠ "")
    (hacc : ∀ r ∈ acc, r.chunk.athlete_name = .str E) :
    ∀ r ∈ VectorStore.searchLoop meta mapping (some E) topK cands acc,
      r.chunk.athlete_name = .str E := by
  induction cands generalizing acc with
  | nil => exact hacc
  | cons p rest ih =>
    obtain ⟨dist, idx⟩ := p
    simp only [VectorStore.searchLoop]
    split
    · exact ih acc hacc
    · split
      · exact ih acc hacc
      · rename_i mid
        split
        · exact ih acc hacc
        · split
          · exact ih acc hacc
          · rename_i m heq
            split
            · exact ih acc hacc
            · rename_i hcond
              have hm : m.athlete_name = .str E := by
                by_contra hne
                exact hcond (by simp [optStrTruthy, hE, hne])
              have hacc' : ∀ r ∈ acc ++
                  [(⟨m, dist, idx⟩ : VectorStore.SearchResult)],
                  r.chunk.athlete_name = .str E := by
                intro r hr
                rcases List.mem_append.mp hr with h | h
                · exact hacc r h
                · simp only [List.mem_singleton] at h
                  subst h
                  exact hm
              split
              · exact hacc'
              · exact ih _ hacc'

/-- Claim C5: for every query, entity E (a non-empty name, since the
source treats an empty string like an unset filter), top-k and
similarity threshold, every result returned by `FAISSRetriever.retrieve`
with entity filter E is attributed to E, and likewise every result of
`VectorStore.search_similar` with athlete filter E. -/
theorem C5_entity_filter (embed : String → List ℝ)
    (faissScan1 : List ℝ → Nat → List (Int × ℝ))
    (faissScan2 : List (List ℝ) → List ℝ → Nat → List (ℝ × Int))
    (meta : VectorStore.MetaStore) (mapping : List (Nat × String))
    (st : VectorStore.VSState) (query : String) (qv : List ℝ)
    (E : String) (topK : Nat) (minSim : ℝ) (hE : E ≠ "") :
    ((FAISSRetriever.retrieve embed faissScan1 meta mapping query (some E)
        topK minSim).Forall (fun r => r.athlete_name = .str E)) ∧
    ((VectorStore.search_similar faissScan2 st qv (some E)
        topK).Forall (fun r => r.chunk.athlete_name = .str E)) := by
  constructor
  · rw [List.forall_iff_forall_mem]
    intro r hr
    exact retrieveLoop_filter meta mapping E topK minSim _ [] hE
      (by simp) r hr
  · rw [List.forall_iff_forall_mem]
    intro r hr
    unfold VectorStore.search_similar at hr
    split at hr
    · simp at hr
    · exact searchLoop_filter st.meta st.mapping E topK _ [] hE
        (by simp) r (List.mem_of_mem_take hr)

/-- Witness for C5_entity_filter at a concrete input. -/
theorem C5_entity_filter_witness :
    ("A" : String) ≠ "" ∧
    ((FAISSRetriever.retrieve (fun _ => []) (fun _ _ => []) ⟨[], 0⟩ []
        "q" (some "A") 1 0).Forall
      (fun r => r.athlete_name = .str "A")) :=
  ⟨by decide,
   (C5_entity_filter (fun _ => []) (fun _ _ => []) (fun _ _ _ => [])
      ⟨[], 0⟩ [] ⟨⟨[], 0⟩, [], 0, []⟩ "q" [] "A" 1 0 (by decide)).1⟩

/-! ### Chunker lemmas for claims C6 and C10 -/

namespace TextChunker

theorem strideLoop_metadata (chunkSize chunkOverlap : Nat)
    (decode : List Nat → String) (md : Dict) (tokens : List Nat) :
    ∀ (fuel start ci : Nat), tokens.length - start ≤ fuel →
      ∀ c ∈ strideLoop chunkSize chunkOverlap decode md tokens start ci,
        c.metadata = dictInsert md "chunk_index" (.nat c.chunk_index) := by
  intro fuel
  induction fuel with
  | zero =>
    intro start ci h c hc
    unfold strideLoop at hc
    rw [dif_neg (by omega)] at hc
    simp at hc
  | succ n ih =>
    intro start ci h c hc
    unfold strideLoop at hc
    by_cases hcond : start < tokens.length ∧ chunkOverlap < chunkSize
    · rw [dif_pos hcond] at hc
      rcases List.mem_cons.mp hc with rfl | hmem
      · rfl
      · exact ih (start + (chunkSize - chunkOverlap)) (ci + 1)
          (by omega) c hmem
    · rw [dif_neg hcond] at hc
      simp at hc

theorem strideLoop_length_ne_one (chunkSize chunkOverlap : Nat)
    (decode : List Nat → String) (md : Dict) (tokens : List Nat)
    (h : chunkSize < tokens.length) :
    (strideLoop chunkSize chunkOverlap decode md tokens 0 0).length ≠ 1 := by
  by_cases hov : chunkOverlap < chunkSize
  · unfold strideLoop
    rw [dif_pos ⟨by omega, hov⟩]
    unfold strideLoop
    rw [dif_pos ⟨by omega, hov⟩]
    simp
  · unfold strideLoop
    rw [dif_neg (by omega)]
    simp

theorem split_text_eq (encode : String → List Nat)
    (decode : List Nat → String) (chunkSize chunkOverlap : Nat)
    (text : String) (md : Dict) (prependMeta : Bool) :
    split_text encode decode chunkSize chunkOverlap text md prependMeta
        = [] ∨
    (∃ ft n, split_text encode decode chunkSize chunkOverlap text md
        prependMeta = [⟨ft, md, 0, n⟩]) ∨
    (∃ ft, chunkSize < (encode ft).length ∧
      split_text encode decode chunkSize chunkOverlap text md prependMeta
        = strideLoop chunkSize chunkOverlap decode md (encode ft) 0 0) := by
  simp only [split_text]
  split
  · exact Or.inl rfl
  · split <;>
    · split
      · exact Or.inr (Or.inl ⟨_, _, rfl⟩)
      · refine Or.inr (Or.inr ⟨_, ?_, rfl⟩)
        omega

end TextChunker

/-- Claim C6: with chunk size 1000 and overlap 200, a text (with the
metadata header disabled) whose tokenization has exactly 2500 tokens
splits into exactly 4 chunks whose token windows start at offsets 0,
800, 1600 and 2400, whose token counts are 1000, 1000, 900 and 100, and
whose chunk indices run from 0 to 3. -/
theorem C6_chunk_layout (encode : String → List Nat)
    (decode : List Nat → String) (text : String) (md : Dict)
    (htext : pyStrip text ≠ "") (htok : (encode text).length = 2500) :
    TextChunker.split_text encode decode 1000 200 text md false =
      [⟨decode ((encode text).take 1000),
        dictInsert md "chunk_index" (.nat 0), 0, 1000⟩,
       ⟨decode (((encode text).drop 800).take 1000),
        dictInsert md "chunk_index" (.nat 1), 1, 1000⟩,
       ⟨decode (((encode text).drop 1600).take 1000),
        dictInsert md "chunk_index" (.nat 2), 2, 900⟩,
       ⟨decode (((encode text).drop 2400).take 1000),
        dictInsert md "chunk_index" (.nat 3), 3, 100⟩] := by
  have htne : ¬(text = "" ∨ pyStrip text = "") := by
    rintro (rfl | h)
    · exact htext (by decide)
    · exact htext h
  simp only [TextChunker.split_text, if_neg htne, Bool.false_eq_true,
    if_false, htok]
  rw [if_neg (by omega)]
  unfold TextChunker.strideLoop
  rw [dif_pos ⟨by omega, by omega⟩]
  unfold TextChunker.strideLoop
  rw [dif_pos ⟨by omega, by omega⟩]
  unfold TextChunker.strideLoop
  rw [dif_pos ⟨by omega, by omega⟩]
  unfold TextChunker.strideLoop
  rw [dif_pos ⟨by omega, by omega⟩]
  unfold TextChunker.strideLoop
  rw [dif_neg (by omega)]
  simp [List.length_take, List.length_drop, htok]

/-- Witness for C6_chunk_layout at a concrete input: a tokenizer
yielding 2500 tokens splits into the four claimed windows. -/
theorem C6_chunk_layout_witness :
    (pyStrip "x" ≠ "" ∧
      (((fun _ => List.range 2500) : String → List Nat) "x").length =
        2500) ∧
    TextChunker.split_text (fun _ => List.range 2500) (fun _ => "d") 1000
        200 "x" [] false =
      [⟨"d", [("chunk_index", .nat 0)], 0, 1000⟩,
       ⟨"d", [("chunk_index", .nat 1)], 1, 1000⟩,
       ⟨"d", [("chunk_index", .nat 2)], 2, 900⟩,
       ⟨"d", [("chunk_index", .nat 3)], 3, 100⟩] := by
  have h1 : pyStrip "x" ≠ "" := by decide
  have h2 : (((fun _ => List.range 2500) : String → List Nat) "x").length
      = 2500 := by simp
  refine ⟨⟨h1, h2⟩, ?_⟩
  rw [C6_chunk_layout (fun _ => List.range 2500) (fun _ => "d") "x" []
    h1 h2]
  rfl

/-! ### Claim C10 -/

/-- Claim C10: when `split_text` returns more than one chunk, every
returned chunk's metadata mapping carries a `chunk_index` key equal to
the chunk's `chunk_index` field; when it returns exactly one chunk, the
chunk's metadata is the caller's mapping unchanged (in particular no
`chunk_index` key is added to it). -/
theorem C10_metadata_chunk_index (encode : String → List Nat)
    (decode : List Nat → String) (chunkSize chunkOverlap : Nat)
    (text : String) (md : Dict) (prependMeta : Bool) :
    (1 < (TextChunker.split_text encode decode chunkSize chunkOverlap
        text md prependMeta).length →
      (TextChunker.split_text encode decode chunkSize chunkOverlap text
          md prependMeta).Forall
        (fun c => dictHasKey c.metadata "chunk_index" = true ∧
          dictGet c.metadata "chunk_index" = .nat c.chunk_index)) ∧
    ((TextChunker.split_text encode decode chunkSize chunkOverlap text
        md prependMeta).length = 1 →
      (TextChunker.split_text encode decode chunkSize chunkOverlap text
          md prependMeta).Forall (fun c => c.metadata = md)) := by
  rcases TextChunker.split_text_eq encode decode chunkSize chunkOverlap
      text md prependMeta with h | ⟨ft, n, h⟩ | ⟨ft, hlen, h⟩
  · rw [h]
    exact ⟨fun hh => by simp at hh, fun hh => by simp at hh⟩
  · rw [h]
    exact ⟨fun hh => by simp at hh, fun _ => by simp [List.Forall]⟩
  · rw [h]
    constructor
    · intro _
      rw [List.forall_iff_forall_mem]
      intro c hc
      have hmeta := TextChunker.strideLoop_metadata chunkSize chunkOverlap
        decode md (encode ft) (encode ft).length 0 0 (by omega) c hc
      rw [hmeta]
      exact ⟨dictHasKey_insert_self md "chunk_index" (.nat c.chunk_index),
        dictGet_insert_self md "chunk_index" (.nat c.chunk_index)⟩
    · intro hh
      exact absurd hh (TextChunker.strideLoop_length_ne_one chunkSize
        chunkOverlap decode md (encode ft) hlen)

/-- Witness for C10_metadata_chunk_index at concrete inputs: a 3-token
text with chunk size 2 and overlap 1 yields three chunks, all carrying
the chunk_index key; a 1-token text yields one chunk with the caller's
metadata untouched. -/
theorem C10_metadata_chunk_index_witness :
    (1 < (TextChunker.split_text (fun _ => [0, 1, 2]) (fun _ => "d") 2 1
        "abc" [("k", .str "v")] false).length ∧
      (TextChunker.split_text (fun _ => [0, 1, 2]) (fun _ => "d") 2 1
          "abc" [("k", .str "v")] false).Forall
        (fun c => dictHasKey c.metadata "chunk_index" = true ∧
          dictGet c.metadata "chunk_index" = .nat c.chunk_index)) ∧
    ((TextChunker.split_text (fun _ => [0]) (fun _ => "d") 2 1 "a"
        [("k", .str "v")] false).length = 1 ∧
      (TextChunker.split_text (fun _ => [0]) (fun _ => "d") 2 1 "a"
          [("k", .str "v")] false).Forall (fun c => c.metadata =
        [("k", .str "v")])) := by
  have h3 : 1 < (TextChunker.split_text (fun _ => [0, 1, 2])
      (fun _ => "d") 2 1 "abc" [("k", .str "v")] false).length := by
    simp only [TextChunker.split_text]
    rw [if_neg (by decide)]
    rw [if_neg (by decide)]
    unfold TextChunker.strideLoop
    rw [dif_pos (by constructor <;> decide)]
    unfold TextChunker.strideLoop
    rw [dif_pos (by constructor <;> decide)]
    simp
  have h1 : (TextChunker.split_text (fun _ => [0]) (fun _ => "d") 2 1 "a"
      [("k", .str "v")] false).length = 1 := by
    simp only [TextChunker.split_text]
    rw [if_neg (by decide)]
    rw [if_pos (by decide)]
    rfl
  exact ⟨⟨h3, (C10_metadata_chunk_index (fun _ => [0, 1, 2])
      (fun _ => "d") 2 1 "abc" [("k", .str "v")] false).1 h3⟩,
    ⟨h1, (C10_metadata_chunk_index (fun _ => [0]) (fun _ => "d") 2 1 "a"
      [("k", .str "v")] false).2 h1⟩⟩

/-! ### Vector store lemmas for claim C1 -/

namespace VectorStore

theorem mem_get_indexed_doc_ids (meta : MetaStore) (A : String)
    (x : MVal) :
    x ∈ get_indexed_doc_ids meta A ↔
      x.truthy = true ∧ ∃ m ∈ meta.docs, m.athlete_name = .str A ∧
        dictGet m.metadata "source_doc_id" = x := by
  unfold get_indexed_doc_ids
  rw [List.mem_dedup, List.mem_filter, List.mem_map]
  constructor
  · rintro ⟨⟨m, hm, rfl⟩, ht⟩
    rw [List.mem_filter] at hm
    exact ⟨ht, m, hm.1, of_decide_eq_true hm.2, rfl⟩
  · rintro ⟨ht, m, hm, hA, rfl⟩
    exact ⟨⟨m, List.mem_filter.mpr ⟨hm, decide_eq_true hA⟩, rfl⟩, ht⟩

theorem get_indexed_doc_ids_mono (meta meta' : MetaStore) (A : String)
    (x : MVal) (h : ∃ tail, meta'.docs = meta.docs ++ tail)
    (hx : x ∈ get_indexed_doc_ids meta A) :
    x ∈ get_indexed_doc_ids meta' A := by
  obtain ⟨tail, htail⟩ := h
  rw [mem_get_indexed_doc_ids] at hx ⊢
  obtain ⟨ht, m, hm, hA, hs⟩ := hx
  exact ⟨ht, m, htail ▸ List.mem_append_left tail hm, hA, hs⟩

theorem indexLoop_meta_mono (dim : Nat) (skipDup : Bool)
    (insOk : Nat → Bool) (now : Nat) (chunks : List EmbChunk)
    (s : IndexLoopSt) :
    ∃ tail, (indexLoop dim skipDup insOk now chunks s).meta.docs =
      s.meta.docs ++ tail := by
  induction chunks generalizing s with
  | nil => exact ⟨[], by simp [indexLoop]⟩
  | cons c rest ih =>
    simp only [indexLoop]
    split
    · exact ih s
    · split
      · exact ih s
      · split
        · obtain ⟨tail, htail⟩ := ih
            ⟨⟨s.meta.docs ++ [chunkMetaDoc c s.next_faiss_id
                s.meta.nextKey now], s.meta.nextKey + 1⟩,
             mapInsert s.mapping s.next_faiss_id (toString s.meta.nextKey),
             s.next_faiss_id + 1, s.inserted + 1,
             s.embs ++ [normalizeL2 c.embedding], s.attempts + 1⟩
          exact ⟨[chunkMetaDoc c s.next_faiss_id s.meta.nextKey now] ++
            tail, by rw [htail]; simp⟩
        · exact ih _

theorem indexLoop_covers_sid (dim now : Nat) (insOk : Nat → Bool)
    (hins : ∀ i, insOk i = true) (sid : MVal) (A : MVal) :
    ∀ (cs : List EmbChunk) (s : IndexLoopSt),
      (∀ c ∈ cs, c.embedding.length = dim) → dim ≠ 0 →
      (∀ c ∈ cs, c.athlete_name = A) →
      (∃ c ∈ cs, dictGet c.metadata "source_doc_id" = sid) →
      (∀ m ∈ s.meta.docs, dictGet m.metadata "source_doc_id" ≠ sid) →
      ∃ m ∈ (indexLoop dim true insOk now cs s).meta.docs,
        dictGet m.metadata "source_doc_id" = sid ∧ m.athlete_name = A := by
  intro cs
  induction cs with
  | nil =>
    intro s _ _ _ hex _
    simp at hex
  | cons c rest ih =>
    intro s hdim hdim0 hath hex hpre
    by_cases hsid : dictGet c.metadata "source_doc_id" = sid
    · have hdup : findDuplicate s.meta
          (dictGet c.metadata "source_doc_id") c.chunk_index = none := by
        unfold findDuplicate
        rw [List.find?_eq_none]
        intro m hm hdec
        exact hpre m hm ((of_decide_eq_true hdec).1.trans hsid)
      simp only [indexLoop, hdup, Option.isSome_none, Bool.and_false,
        Bool.false_eq_true, if_false]
      rw [if_neg (by
        rw [hdim c (List.mem_cons_self c rest)]
        simp [hdim0])]
      simp only [hins, if_true]
      obtain ⟨tail, htail⟩ := indexLoop_meta_mono dim true insOk now rest
        ⟨⟨s.meta.docs ++ [chunkMetaDoc c s.next_faiss_id s.meta.nextKey
            now], s.meta.nextKey + 1⟩,
         mapInsert s.mapping s.next_faiss_id (toString s.meta.nextKey),
         s.next_faiss_id + 1, s.inserted + 1,
         s.embs ++ [normalizeL2 c.embedding], s.attempts + 1⟩
      refine ⟨chunkMetaDoc c s.next_faiss_id s.meta.nextKey now, ?_,
        hsid, hath c (List.mem_cons_self c rest)⟩
      rw [htail]
      simp
    · have hrest : ∃ c' ∈ rest, dictGet c'.metadata "source_doc_id" =
          sid := by
        obtain ⟨c', hc', hs⟩ := hex
        rcases List.mem_cons.mp hc' with rfl | hmem
        · exact absurd hs hsid
        · exact ⟨c', hmem, hs⟩
      have hdim' : ∀ c' ∈ rest, c'.embedding.length = dim :=
        fun c' h => hdim c' (List.mem_cons_of_mem c h)
      have hath' : ∀ c' ∈ rest, c'.athlete_name = A :=
        fun c' h => hath c' (List.mem_cons_of_mem c h)
      simp only [indexLoop]
      split
      · exact ih s hdim' hdim0 hath' hrest hpre
      · split
        · exact ih s hdim' hdim0 hath' hrest hpre
        · split
          · apply ih _ hdim' hdim0 hath' hrest
            intro m hm
            simp only at hm
            rcases List.mem_append.mp hm with h | h
            · exact hpre m h
            · simp only [List.mem_singleton] at h
              subst h
              exact hsid
          · exact ih _ hdim' hdim0 hath' hrest hpre

end VectorStore

/-! ### Chunker and pipeline lemmas for claim C1 -/

theorem split_text_metadata (encode : String → List Nat)
    (decode : List Nat → String) (chunkSize chunkOverlap : Nat)
    (text : String) (md : Dict) (prependMeta : Bool) :
    ∀ c ∈ TextChunker.split_text encode decode chunkSize chunkOverlap
        text md prependMeta,
      c.metadata = md ∨
        c.metadata = dictInsert md "chunk_index" (.nat c.chunk_index) := by
  rcases TextChunker.split_text_eq encode decode chunkSize chunkOverlap
      text md prependMeta with h | ⟨ft, n, h⟩ | ⟨ft, hlen, h⟩ <;> rw [h]
  · simp
  · intro c hc
    simp only [List.mem_singleton] at hc
    subst hc
    exact Or.inl rfl
  · intro c hc
    exact Or.inr (TextChunker.strideLoop_metadata chunkSize chunkOverlap
      decode md (encode ft) (encode ft).length 0 0 (by omega) c hc)

theorem split_text_ne_nil (encode : String → List Nat)
    (decode : List Nat → String) (chunkSize chunkOverlap : Nat)
    (text : String) (md : Dict) (prependMeta : Bool)
    (h1 : text ≠ "") (h2 : pyStrip text ≠ "")
    (hov : chunkOverlap < chunkSize) :
    TextChunker.split_text encode decode chunkSize chunkOverlap text md
      prependMeta ≠ [] := by
  simp only [TextChunker.split_text]
  rw [if_neg (by tauto)]
  split <;>
  · split
    · simp
    · rename_i hlen
      unfold TextChunker.strideLoop
      rw [dif_pos ⟨by omega, hov⟩]
      simp

namespace AthleteIndexingPipeline

theorem docMetadata_source_doc_id (d : ProcDoc) :
    dictGet (docMetadata d) "source_doc_id" = .str d.idStr := by
  simp [docMetadata, dictGet, List.find?]

theorem docMetadata_athlete_name (d : ProcDoc) :
    dictGet (docMetadata d) "athlete_name" = .str d.athlete_name := by
  simp [docMetadata, dictGet, List.find?]

theorem mem_split_documents (encode : String → List Nat)
    (decode : List Nat → String) (chunkSize chunkOverlap : Nat)
    (documents : List ProcDoc) (prependMeta : Bool)
    (c : TextChunker.TextChunk)
    (hc : c ∈ split_documents encode decode chunkSize chunkOverlap
      documents prependMeta) :
    ∃ d ∈ documents, d.markdown ≠ "" ∧
      c ∈ TextChunker.split_text encode decode chunkSize chunkOverlap
        d.markdown (docMetadata d) prependMeta := by
  unfold split_documents at hc
  rw [List.mem_flatten] at hc
  obtain ⟨l, hl, hcl⟩ := hc
  rw [List.mem_map] at hl
  obtain ⟨d, hd, rfl⟩ := hl
  by_cases hmd : d.markdown = ""
  · rw [if_pos hmd] at hcl
    simp at hcl
  · rw [if_neg hmd] at hcl
    exact ⟨d, hd, hmd, hcl⟩

theorem chunk_metadata_source (encode : String → List Nat)
    (decode : List Nat → String) (chunkSize chunkOverlap : Nat)
    (prependMeta : Bool) (documents : List ProcDoc)
    (ch : ChunkDict)
    (hch : ch ∈ split_into_chunks encode decode chunkSize chunkOverlap
      prependMeta documents) :
    ∃ d ∈ documents,
      dictGet ch.metadata "source_doc_id" = .str d.idStr ∧
      ch.athlete_name = .str d.athlete_name := by
  unfold split_into_chunks at hch
  rw [List.mem_map] at hch
  obtain ⟨c, hc, rfl⟩ := hch
  obtain ⟨d, hd, hmd, hcs⟩ := mem_split_documents encode decode chunkSize
    chunkOverlap documents prependMeta c hc
  refine ⟨d, hd, ?_, ?_⟩ <;>
  · rcases split_text_metadata encode decode chunkSize chunkOverlap
        d.markdown (docMetadata d) prependMeta c hcs with h | h <;>
      simp only [h, docMetadata_source_doc_id, docMetadata_athlete_name,
        dictGet_insert_ne _ "chunk_index" "source_doc_id" _ (by decide),
        dictGet_insert_ne _ "chunk_index" "athlete_name" _ (by decide)]

theorem chunk_exists_for_doc (encode : String → List Nat)
    (decode : List Nat → String) (chunkSize chunkOverlap : Nat)
    (prependMeta : Bool) (documents : List ProcDoc) (d : ProcDoc)
    (hd : d ∈ documents) (hmd : d.markdown ≠ "")
    (hstrip : pyStrip d.markdown ≠ "")
    (hov : chunkOverlap < chunkSize) :
    ∃ ch ∈ split_into_chunks encode decode chunkSize chunkOverlap
        prependMeta documents,
      dictGet ch.metadata "source_doc_id" = .str d.idStr := by
  have hne := split_text_ne_nil encode decode chunkSize chunkOverlap
    d.markdown (docMetadata d) prependMeta hmd hstrip hov
  obtain ⟨c, hc⟩ := List.exists_mem_of_ne_nil _ hne
  have hcd : c ∈ split_documents encode decode chunkSize chunkOverlap
      documents prependMeta := by
    unfold split_documents
    rw [List.mem_flatten]
    refine ⟨_, List.mem_map.mpr ⟨d, hd, rfl⟩, ?_⟩
    rw [if_neg hmd]
    exact hc
  refine ⟨⟨c.text, c.metadata, c.chunk_index, c.token_count,
    dictGet c.metadata "athlete_name"⟩, ?_, ?_⟩
  · unfold split_into_chunks
    exact List.mem_map.mpr ⟨c, hcd, rfl⟩
  · rcases split_text_metadata encode decode chunkSize chunkOverlap
        d.markdown (docMetadata d) prependMeta c hc with h | h <;>
      simp only [h, docMetadata_source_doc_id,
        dictGet_insert_ne _ "chunk_index" "source_doc_id" _ (by decide)]

theorem processedFor_props (source : List RawDoc) (A : String)
    (now : Nat) (d : ProcDoc) (hd : d ∈ processedFor source A now) :
    d.athlete_name = A ∧ d.idStr ≠ "" ∧ d.markdown ≠ "" ∧
      pyStrip d.markdown ≠ "" := by
  unfold processedFor at hd
  rw [List.mem_flatten] at hd
  obtain ⟨l, hl, hdl⟩ := hd
  rw [List.mem_map] at hl
  obtain ⟨r, hr, rfl⟩ := hl
  rw [List.mem_filter] at hr
  have hrA : r.athlete_name = some A := of_decide_eq_true hr.2
  rw [List.mem_filterMap] at hdl
  obtain ⟨p, _, hp⟩ := hdl
  unfold processWebItem at hp
  dsimp only at hp
  split at hp
  · exact absurd hp (by simp)
  · rename_i hcond
    push_neg at hcond
    obtain ⟨htext, hlen⟩ := hcond
    rw [Option.some_inj] at hp
    subst hp
    refine ⟨by simp [hrA], ?_, htext, ?_⟩
    · intro h
      have := congrArg String.length h
      simp only [String.length_append, show "_".length = 1 from rfl,
        show ("" : String).length = 0 from rfl] at this
      omega
    · intro h
      rw [h] at hlen
      simp at hlen

theorem mem_fetch_documents (source : List RawDoc)
    (meta : VectorStore.MetaStore) (A : String) (now : Nat)
    (d : ProcDoc) :
    d ∈ fetch_documents source meta A true now ↔
      d ∈ processedFor source A now ∧
        MVal.str d.idStr ∉ VectorStore.get_indexed_doc_ids meta A := by
  unfold fetch_documents processedFor
  by_cases hraw :
      (source.filter (fun r => decide (r.athlete_name = some A))).isEmpty
  · rw [if_pos hraw]
    rw [List.isEmpty_iff] at hraw
    simp [hraw]
  · rw [if_neg hraw]
    simp only [if_true]
    by_cases hind : VectorStore.get_indexed_doc_ids meta A ≠ []
    · rw [if_pos hind, List.mem_filter]
      constructor
      · rintro ⟨h1, h2⟩
        exact ⟨h1, of_decide_eq_true h2⟩
      · rintro ⟨h1, h2⟩
        exact ⟨h1, decide_eq_true h2⟩
    · rw [if_neg hind]
      rw [not_ne_iff] at hind
      simp [hind]

theorem process_athlete_indexing_source (env : PipeEnv) (A : String)
    (skipIndexed : Bool) (st : PipeSt) :
    (process_athlete_indexing env A skipIndexed st).2.source =
      st.source := by
  unfold process_athlete_indexing
  dsimp only
  split
  · rfl
  · split
    · rfl
    · rfl

theorem process_athlete_indexing_meta_mono (env : PipeEnv) (A : String)
    (skipIndexed : Bool) (st : PipeSt) :
    ∃ tail, (process_athlete_indexing env A skipIndexed st).2.vs.meta.docs
      = st.vs.meta.docs ++ tail := by
  unfold process_athlete_indexing
  dsimp only
  split
  · exact ⟨[], by simp⟩
  · split
    · exact ⟨[], by simp⟩
    · simp only
      unfold VectorStore.index_chunks
      split
      · exact ⟨[], by simp⟩
      · exact VectorStore.indexLoop_meta_mono env.dim true env.insOk
          env.now _ _

theorem process_athlete_indexing_no_docs (env : PipeEnv) (A : String)
    (skipIndexed : Bool) (st : PipeSt)
    (h : fetch_documents st.source st.vs.meta A skipIndexed env.now = []) :
    process_athlete_indexing env A skipIndexed st =
      (⟨A, some 0, some 0, some 0, some 0, "no_new_documents", none⟩,
        st) := by
  unfold process_athlete_indexing
  dsimp only
  rw [h]
  rfl

end AthleteIndexingPipeline

/-! ### Claim C1: idempotent re-indexing -/

section
open AthleteIndexingPipeline VectorStore

/-- Claim C1: after a successful indexing run for an entity — all
metadata inserts succeed, the embedding model always reports the
store's non-zero dimension, the chunking overlap is below the chunk
size (a stated data-model invariant), and no metadata document already
claims one of this entity's passage ids under another entity's name —
running the pipeline a second time for the same entity with
`skip_indexed = true` loads no documents: the already-indexed
source-document-id set computed for the entity covers every processed
passage, so the second run returns the `no_new_documents` statistics
record and leaves the whole state (metadata documents and vectors
alike) unchanged. -/
theorem C1_idempotent_reindexing (env : PipeEnv) (A : String)
    (st : PipeSt)
    (hins : ∀ i, env.insOk i = true)
    (hembed : ∀ t, (env.embed t).length = env.dim)
    (hdim : env.dim ≠ 0)
    (hov : env.chunkOverlap < env.chunkSize)
    (hmeta : ∀ m ∈ st.vs.meta.docs,
      ∀ d ∈ processedFor st.source A env.now,
      dictGet m.metadata "source_doc_id" = MVal.str d.idStr →
      m.athlete_name = MVal.str A) :
    fetch_documents (process_athlete_indexing env A true st).2.source
        (process_athlete_indexing env A true st).2.vs.meta A true
        env.now = [] ∧
    process_athlete_indexing env A true
        (process_athlete_indexing env A true st).2 =
      (⟨A, some 0, some 0, some 0, some 0, "no_new_documents", none⟩,
        (process_athlete_indexing env A true st).2) := by
  have hsource : (process_athlete_indexing env A true st).2.source =
      st.source := process_athlete_indexing_source env A true st
  have hcov : ∀ d ∈ processedFor st.source A env.now,
      MVal.str d.idStr ∈ get_indexed_doc_ids
        (process_athlete_indexing env A true st).2.vs.meta A := by
    intro d hd
    obtain ⟨hdA, hdid, hdmd, hdstrip⟩ :=
      processedFor_props st.source A env.now d hd
    by_cases hD : d ∈ fetch_documents st.source st.vs.meta A true env.now
    · -- the passage was loaded by the first run, so one of its chunks
      -- was inserted with this source id and the entity's name
      have hDne : ¬(fetch_documents st.source st.vs.meta A true
          env.now).isEmpty = true := by
        rw [List.isEmpty_iff]
        intro h
        rw [h] at hD
        exact absurd hD (List.not_mem_nil d)
      obtain ⟨ch, hch, hchsid⟩ := chunk_exists_for_doc env.encode
        env.decode env.chunkSize env.chunkOverlap env.prependMeta
        (fetch_documents st.source st.vs.meta A true env.now) d hD hdmd
        hdstrip hov
      have hchne : ¬(split_into_chunks env.encode env.decode env.chunkSize
          env.chunkOverlap env.prependMeta
          (fetch_documents st.source st.vs.meta A true
            env.now)).isEmpty = true := by
        rw [List.isEmpty_iff]
        intro h
        rw [h] at hch
        exact absurd hch (List.not_mem_nil ch)
      have hvs : (process_athlete_indexing env A true st).2.vs =
          (index_chunks env.dim st.vs
            (embed_chunks env.embed env.modelName env.dim
              (split_into_chunks env.encode env.decode env.chunkSize
                env.chunkOverlap env.prependMeta
                (fetch_documents st.source st.vs.meta A true env.now)))
            true env.insOk env.now).1 := by
        unfold process_athlete_indexing
        dsimp only
        rw [if_neg hDne, if_neg hchne]
      have henrne : ¬(embed_chunks env.embed env.modelName env.dim
          (split_into_chunks env.encode env.decode env.chunkSize
            env.chunkOverlap env.prependMeta
            (fetch_documents st.source st.vs.meta A true
              env.now))).isEmpty = true := by
        rw [List.isEmpty_iff]
        unfold embed_chunks
        intro h
        rw [List.map_eq_nil_iff] at h
        rw [h] at hch
        exact absurd hch (List.not_mem_nil ch)
      have hic : (index_chunks env.dim st.vs
          (embed_chunks env.embed env.modelName env.dim
            (split_into_chunks env.encode env.decode env.chunkSize
              env.chunkOverlap env.prependMeta
              (fetch_documents st.source st.vs.meta A true env.now)))
          true env.insOk env.now).1.meta =
          (indexLoop env.dim true env.insOk env.now
            (embed_chunks env.embed env.modelName env.dim
              (split_into_chunks env.encode env.decode env.chunkSize
                env.chunkOverlap env.prependMeta
                (fetch_documents st.source st.vs.meta A true env.now)))
            ⟨st.vs.meta, st.vs.mapping, st.vs.next_faiss_id, 0, [],
              0⟩).meta := by
        unfold index_chunks
        rw [if_neg henrne]
      obtain ⟨m, hm, hmsid, hmA⟩ := indexLoop_covers_sid env.dim env.now
        env.insOk hins (MVal.str d.idStr) (MVal.str A)
        (embed_chunks env.embed env.modelName env.dim
          (split_into_chunks env.encode env.decode env.chunkSize
            env.chunkOverlap env.prependMeta
            (fetch_documents st.source st.vs.meta A true env.now)))
        ⟨st.vs.meta, st.vs.mapping, st.vs.next_faiss_id, 0, [], 0⟩
        (by
          intro c hc
          unfold embed_chunks at hc
          rw [List.mem_map] at hc
          obtain ⟨cd, _, rfl⟩ := hc
          exact hembed cd.text)
        hdim
        (by
          intro c hc
          unfold embed_chunks at hc
          rw [List.mem_map] at hc
          obtain ⟨cd, hcd, rfl⟩ := hc
          obtain ⟨d', hd', _, hath⟩ := chunk_metadata_source env.encode
            env.decode env.chunkSize env.chunkOverlap env.prependMeta
            (fetch_documents st.source st.vs.meta A true env.now) cd hcd
          have hd'P := ((mem_fetch_documents st.source st.vs.meta A
            env.now d').mp hd').1
          have := (processedFor_props st.source A env.now d' hd'P).1
          simpa [this] using hath)
        (by
          refine ⟨⟨ch.text, ch.metadata, ch.chunk_index, ch.token_count,
            ch.athlete_name, env.embed ch.text, env.modelName, env.dim⟩,
            ?_, hchsid⟩
          unfold embed_chunks
          exact List.mem_map.mpr ⟨ch, hch, rfl⟩)
        (by
          intro m hm heq
          have hmA' := hmeta m hm d hd heq
          have hin0 : MVal.str d.idStr ∈ get_indexed_doc_ids st.vs.meta
              A := by
            rw [mem_get_indexed_doc_ids]
            exact ⟨by simp [MVal.truthy, hdid], m, hm, hmA', heq⟩
          exact ((mem_fetch_documents st.source st.vs.meta A env.now
            d).mp hD).2 hin0)
      rw [mem_get_indexed_doc_ids]
      refine ⟨by simp [MVal.truthy, hdid], m, ?_, hmA, hmsid⟩
      rw [hvs, hic]
      exact hm
    · -- the passage was already indexed before the first run
      have hin0 : MVal.str d.idStr ∈ get_indexed_doc_ids st.vs.meta
          A := by
        by_contra hnot
        exact hD ((mem_fetch_documents st.source st.vs.meta A env.now
          d).mpr ⟨hd, hnot⟩)
      exact get_indexed_doc_ids_mono st.vs.meta _ A _
        (process_athlete_indexing_meta_mono env A true st) hin0
  have hfetch2 : fetch_documents
      (process_athlete_indexing env A true st).2.source
      (process_athlete_indexing env A true st).2.vs.meta A true
      env.now = [] := by
    rw [hsource, List.eq_nil_iff_forall_not_mem]
    intro d hd
    rw [mem_fetch_documents] at hd
    exact hd.2 (hcov d hd.1)
  exact ⟨hfetch2, process_athlete_indexing_no_docs env A true
    (process_athlete_indexing env A true st).2 hfetch2⟩

/-- Witness for C1_idempotent_reindexing at a concrete input: a
pipeline whose inserts always succeed, whose embedder reports dimension
1, with overlap 1 below chunk size 2, over an empty initial state. -/
theorem C1_idempotent_reindexing_witness :
    ((∀ i, ((⟨fun _ => [0], fun _ => "d", 2, 1, false, fun _ => [(1 : ℝ)],
        "m", 1, fun _ => true, 0⟩ : PipeEnv)).insOk i = true) ∧
      (∀ t, (((⟨fun _ => [0], fun _ => "d", 2, 1, false,
        fun _ => [(1 : ℝ)], "m", 1, fun _ => true, 0⟩ :
          PipeEnv)).embed t).length = 1) ∧
      (1 : Nat) ≠ 0 ∧ (1 : Nat) < 2) ∧
    fetch_documents
      (process_athlete_indexing
        ⟨fun _ => [0], fun _ => "d", 2, 1, false, fun _ => [(1 : ℝ)],
          "m", 1, fun _ => true, 0⟩ "A" true
        ⟨[], ⟨⟨[], 0⟩, [], 0, []⟩⟩).2.source
      (process_athlete_indexing
        ⟨fun _ => [0], fun _ => "d", 2, 1, false, fun _ => [(1 : ℝ)],
          "m", 1, fun _ => true, 0⟩ "A" true
        ⟨[], ⟨⟨[], 0⟩, [], 0, []⟩⟩).2.vs.meta "A" true 0 = [] :=
  ⟨⟨fun _ => rfl, fun _ => rfl, by decide, by decide⟩,
   (C1_idempotent_reindexing
      ⟨fun _ => [0], fun _ => "d", 2, 1, false, fun _ => [(1 : ℝ)], "m",
        1, fun _ => true, 0⟩ "A" ⟨[], ⟨⟨[], 0⟩, [], 0, []⟩⟩
      (fun _ => rfl) (fun _ => rfl) (by decide) (by decide)
      (fun m hm => absurd hm (List.not_mem_nil m))).1⟩

end

/-! ### Claim C9: batch runs record failures and continue -/

/-- Claim C9: a batch run returns exactly one statistics entry per
requested entity, in order (given that a successful single run reports
the requested entity's name, as `process_athlete_indexing` always
does); an exception in one entity's run is caught and recorded as an
entry with status `error` carrying the message, and the remaining
entities are still processed on the state the failed run left
behind. -/
theorem C9_batch_error_handling
    (runOne : String → AthleteIndexingPipeline.PipeSt →
      Except String AthleteIndexingPipeline.RunStats ×
        AthleteIndexingPipeline.PipeSt)
    (names : List String) (st : AthleteIndexingPipeline.PipeSt)
    (hok : ∀ n st₀ stats st₁, runOne n st₀ = (.ok stats, st₁) →
      stats.athlete_name = n) :
    ((AthleteIndexingPipeline.process_all_athletes runOne names st).1.map
        AthleteIndexingPipeline.RunStats.athlete_name = names) ∧
    (∀ (n : String) (ns : List String)
        (st₀ st₁ : AthleteIndexingPipeline.PipeSt) (msg : String),
      runOne n st₀ = (.error msg, st₁) →
      AthleteIndexingPipeline.process_all_athletes runOne (n :: ns) st₀ =
        (⟨n, none, none, none, none, "error", some msg⟩ ::
          (AthleteIndexingPipeline.process_all_athletes runOne ns st₁).1,
         (AthleteIndexingPipeline.process_all_athletes runOne ns st₁).2)) := by
  constructor
  · induction names generalizing st with
    | nil => rfl
    | cons n rest ih =>
      simp only [AthleteIndexingPipeline.process_all_athletes, List.map_cons]
      rw [ih (runOne n st).2]
      rcases hr : (runOne n st).1 with msg | stats
      · simp
      · simp [hok n st stats (runOne n st).2 (by rw [← hr])]
  · intro n ns st₀ st₁ msg hrun
    simp only [AthleteIndexingPipeline.process_all_athletes, hrun]

/-- Witness for C9_batch_error_handling at a concrete input: a run
function that always fails records an error entry for each entity, in
order. -/
theorem C9_batch_error_handling_witness :
    (∀ n st₀ stats st₁,
      ((fun (_ : String) (s : AthleteIndexingPipeline.PipeSt) =>
        ((.error "boom" : Except String AthleteIndexingPipeline.RunStats),
          s)) n st₀ = (.ok stats, st₁)) → stats.athlete_name = n) ∧
    ((AthleteIndexingPipeline.process_all_athletes
        (fun _ s => (.error "boom", s)) ["a", "b"]
        ⟨[], ⟨⟨[], 0⟩, [], 0, []⟩⟩).1.map
      AthleteIndexingPipeline.RunStats.athlete_name = ["a", "b"]) :=
  ⟨fun n st₀ stats st₁ h => by simp at h,
   (C9_batch_error_handling (fun _ s => (.error "boom", s)) ["a", "b"]
      ⟨[], ⟨⟨[], 0⟩, [], 0, []⟩⟩
      (fun n st₀ stats st₁ h => by simp at h)).1⟩

